import Mathlib

/-!
# ochoXocho core, shallowly embedded

A Lean model of the rules core of the ochoXocho block-placement puzzle:
the 8x8 occupancy board (`src/board.ts`), the placement validator
(`validator.ts`), the shape catalog with rotation and canonical matching
(`src/shapes.ts`), the line-clear engine and scoring
(`src/scoring.ts`, the `Game` class), and the hand generators.

JS `number` values that are used as integers are modelled by `Int`
(or `Nat` for counters); the fractional level-progress accumulator and
the darkness multiplier are modelled by `Rat`.  `Math.random()` draws
are abstracted into an oracle that picks, for each draw, the selected
pool index, rotation count, position index, and weighted-scan value;
theorems quantify over every oracle, i.e. every outcome of the draws.
-/

namespace OchoXocho

/-- `BOARD_CELL_COUNT` from `constants.ts`. -/
def boardCellCount : Nat := 8

/-- `Position` from `types.ts`: a grid coordinate pair. -/
@[ext] structure Pos where
  x : Int
  y : Int
deriving DecidableEq, Repr

/-- `Shape` from `types.ts`: a list of cell offsets relative to the origin. -/
abbrev Shape := List Pos

/-- The 8x8 occupancy grid owned by the `Board` class (`grid[y][x]`). -/
abbrev Board := Fin 8 → Fin 8 → Bool

/-- A board with no filled cells (the `Board` constructor). -/
def emptyBoard : Board := fun _ _ => false

/-- `Board.isCellEmpty`: bounds-checked; out-of-bounds counts as not empty. -/
def isCellEmpty (g : Board) (pos : Pos) : Bool :=
  if h : 0 ≤ pos.x ∧ pos.x < 8 ∧ 0 ≤ pos.y ∧ pos.y < 8 then
    !(g ⟨pos.y.toNat, by omega⟩ ⟨pos.x.toNat, by omega⟩)
  else
    false

/-- `Board.placeShape`: marks each in-bounds cell of the translated shape. -/
def placeShape (g : Board) (shape : Shape) (position : Pos) : Board :=
  shape.foldl (fun acc block =>
    let bx := position.x + block.x
    let by' := position.y + block.y
    if 0 ≤ bx ∧ bx < 8 ∧ 0 ≤ by' ∧ by' < 8 then
      fun y x => if (y.val : Int) = by' ∧ (x.val : Int) = bx then true else acc y x
    else acc) g

/-- `canPlaceShape` from `validator.ts`: every block of the shape, translated
by the position, must be in bounds and on an empty cell. -/
def canPlaceShape (g : Board) (shape : Shape) (position : Pos) : Bool :=
  shape.all fun block =>
    let bx := position.x + block.x
    let by' := position.y + block.y
    decide (0 ≤ bx) && decide (bx < 8) && decide (0 ≤ by') && decide (by' < 8) &&
      isCellEmpty g ⟨bx, by'⟩

/-- `getValidPositions` from `validator.ts`: scans the 64 candidate origins
in row-major order (outer `y`, inner `x`) and keeps those passing
`canPlaceShape`. -/
def getValidPositions (g : Board) (shape : Shape) : List Pos :=
  (List.range 8).flatMap fun y =>
    ((List.range 8).map (fun x => (⟨(x : Int), (y : Int)⟩ : Pos))).filter
      (fun position => canPlaceShape g shape position)

/-- `canPlaceAnyShape` from `validator.ts`: some shape in the queue has at
least one valid position. -/
def canPlaceAnyShape (g : Board) (shapes : List Shape) : Bool :=
  shapes.any fun shape => decide (0 < (getValidPositions g shape).length)

/-- `checkGameOver` from `gameOver.ts` (embedded in `game.ts`): an empty
queue never means game over; otherwise game over iff nothing fits. -/
def checkGameOver (g : Board) (queue : List Shape) : Bool :=
  if queue.length = 0 then false
  else !(canPlaceAnyShape g queue)

/-- Spec-side reading of one cell check in §4.3: the translated cell lies on
the 8x8 board and the board cell there is unoccupied. -/
def SpecCellOk (g : Board) (q : Pos) : Prop :=
  ∃ x y : Fin 8, (x.val : Int) = q.x ∧ (y.val : Int) = q.y ∧ g y x = false

lemma cellCheck_iff (g : Board) (q : Pos) :
    (decide (0 ≤ q.x) && decide (q.x < 8) && decide (0 ≤ q.y) && decide (q.y < 8) &&
      isCellEmpty g q) = true ↔ SpecCellOk g q := by
  constructor
  · intro h
    simp only [Bool.and_eq_true, decide_eq_true_eq] at h
    obtain ⟨⟨⟨⟨hx0, hx8⟩, hy0⟩, hy8⟩, hempty⟩ := h
    rw [isCellEmpty, dif_pos ⟨hx0, hx8, hy0, hy8⟩] at hempty
    refine ⟨⟨q.x.toNat, by omega⟩, ⟨q.y.toNat, by omega⟩, ?_, ?_, ?_⟩
    · show ((q.x.toNat : Nat) : Int) = q.x
      omega
    · show ((q.y.toNat : Nat) : Int) = q.y
      omega
    · simpa using hempty
  · rintro ⟨x, y, hx, hy, hg⟩
    have hx8 : (x.val : Int) < 8 := by exact_mod_cast x.isLt
    have hy8 : (y.val : Int) < 8 := by exact_mod_cast y.isLt
    have hb : 0 ≤ q.x ∧ q.x < 8 ∧ 0 ≤ q.y ∧ q.y < 8 := by omega
    simp only [Bool.and_eq_true, decide_eq_true_eq]
    refine ⟨⟨⟨⟨by omega, by omega⟩, by omega⟩, by omega⟩, ?_⟩
    rw [isCellEmpty, dif_pos hb]
    have hxv : q.x.toNat = x.val := by omega
    have hyv : q.y.toNat = y.val := by omega
    simp only [Bool.not_eq_true']
    convert hg using 2
    · exact Fin.ext hyv
    · exact Fin.ext hxv

/-- Claim C1: `canPlaceShape(board, shape, position)` returns true iff every
cell of the shape translated by the position lies within the 8x8 board and
is unoccupied (out-of-bounds counts as not empty), and `getValidPositions`
returns exactly the candidate origins with both coordinates in `[0,8)` for
which `canPlaceShape` returns true. -/
theorem C1_canPlaceShape_getValidPositions (g : Board) (s : Shape) (p : Pos) :
    (canPlaceShape g s p = true ↔
      ∀ c ∈ s, SpecCellOk g ⟨p.x + c.x, p.y + c.y⟩) ∧
    (∀ q : Pos, q ∈ getValidPositions g s ↔
      0 ≤ q.x ∧ q.x < 8 ∧ 0 ≤ q.y ∧ q.y < 8 ∧ canPlaceShape g s q = true) := by
  constructor
  · rw [canPlaceShape, List.all_eq_true]
    constructor
    · intro h c hc
      exact (cellCheck_iff g ⟨p.x + c.x, p.y + c.y⟩).mp (h c hc)
    · intro h c hc
      exact (cellCheck_iff g ⟨p.x + c.x, p.y + c.y⟩).mpr (h c hc)
  · intro q
    rw [getValidPositions]
    simp only [List.mem_flatMap, List.mem_filter, List.mem_map, List.mem_range]
    constructor
    · rintro ⟨y, hy, ⟨x, hx, rfl⟩, hcan⟩
      obtain ⟨a, ha, rfl⟩ : ∃ a : Nat, a < 8 ∧ x = (a : Int) := by simpa using hx
      refine ⟨?_, ?_, ?_, ?_, hcan⟩ <;> dsimp only <;> omega
    · rintro ⟨hx0, hx8, hy0, hy8, hcan⟩
      refine ⟨q.y.toNat, by omega, ⟨q.x, ?_, ?_⟩, hcan⟩
      · have h : ∃ a : Nat, a < 8 ∧ q.x = (a : Int) := ⟨q.x.toNat, by omega, by omega⟩
        simpa using h
      · ext
        · rfl
        · show ((q.y.toNat : Nat) : Int) = q.y
          omega

/-- Claim C5: `checkGameOver` returns false on an empty hand regardless of
the board, and on a non-empty hand returns true iff `canPlaceAnyShape` is
false, i.e. no shape in the hand has a valid position. -/
theorem C5_checkGameOver (g : Board) (hand : List Shape) :
    (hand = [] → checkGameOver g hand = false) ∧
    (hand ≠ [] →
      ((checkGameOver g hand = true ↔ canPlaceAnyShape g hand = false) ∧
       (checkGameOver g hand = true ↔
         ∀ s ∈ hand, getValidPositions g s = []))) := by
  constructor
  · intro h; subst h; rfl
  · intro hne
    have hlen : hand.length ≠ 0 := by simpa [List.length_eq_zero] using hne
    constructor
    · rw [checkGameOver, if_neg hlen]
      cases h : canPlaceAnyShape g hand <;> simp
    · rw [checkGameOver, if_neg hlen, canPlaceAnyShape]
      simp only [Bool.not_eq_true', List.any_eq_false, decide_eq_false_iff_not]
      constructor
      · intro h s hs
        have := h s hs
        simpa [List.length_eq_zero] using this
      · intro h s hs
        simp [h s hs]

/-- Witness for C5 on a concrete board and hand: the empty hand on a full
board is not game over, and a full board with a non-empty hand is. -/
theorem C5_checkGameOver_witness :
    checkGameOver (fun _ _ => true) [] = false ∧
    (checkGameOver (fun _ _ => true) [[⟨0, 0⟩]] = true ↔
      canPlaceAnyShape (fun _ _ => true) [[⟨0, 0⟩]] = false) :=
  ⟨(C5_checkGameOver (fun _ _ => true) []).1 rfl,
   ((C5_checkGameOver (fun _ _ => true) [[⟨0, 0⟩]]).2 (by simp)).1⟩

/-! ## Shape catalog and rotation (`src/shapes.ts`) -/

/-- `Math.round(v / 2)` for an integer `v`: JS rounds half toward positive
infinity.  All coordinates inside `rotateShape` live on the half-integer
lattice, so the whole computation is carried out in doubled coordinates and
this is the only rounding that occurs. -/
def jsRoundHalf (v : Int) : Int := (v + 1).fdiv 2

/-- `Math.min` over the images of a shape's cells (0 for an empty shape,
which the callers never produce). -/
def minOf (f : Pos → Int) : Shape → Int
  | [] => 0
  | c :: cs => cs.foldl (fun a p => min a (f p)) (f c)

/-- `Math.max` over the images of a shape's cells. -/
def maxOf (f : Pos → Int) : Shape → Int
  | [] => 0
  | c :: cs => cs.foldl (fun a p => max a (f p)) (f c)

/-- The 90-degrees-clockwise step `(x, y) := (y, -x)` applied `n` times, as
in the inner loop of `rotateShape`. -/
def rotIter : Nat → Int × Int → Int × Int
  | 0, v => v
  | n + 1, (vx, vy) => rotIter n (vy, -vx)

/-- `rotateShape` from `shapes.ts`: rotate about the bounding-box center,
round, then re-normalize so the minimum x and y are 0.  The bounding-box
center `(minX+maxX)/2` can be a half-integer, so we work with doubled
coordinates: `d = 2*cell - center2` is rotated exactly, and the final
`Math.round(d/2 + center/2)` is `jsRoundHalf (d + center2)`. -/
def rotateShape (shape : Shape) (rotations : Nat) : Shape :=
  if rotations = 0 ∨ shape = [] then shape
  else
    let cX2 := minOf (·.x) shape + maxOf (·.x) shape
    let cY2 := minOf (·.y) shape + maxOf (·.y) shape
    let rotated := shape.map fun cell =>
      let d := rotIter rotations (2 * cell.x - cX2, 2 * cell.y - cY2)
      (⟨jsRoundHalf (d.1 + cX2), jsRoundHalf (d.2 + cY2)⟩ : Pos)
    let nMinX := minOf (·.x) rotated
    let nMinY := minOf (·.y) rotated
    rotated.map fun c => ⟨c.x - nMinX, c.y - nMinY⟩

/-- The single-cell piece. -/
def MONOMINO : List Shape := [[⟨0, 0⟩]]

/-- The 2-cell piece. -/
def DOMINO : List Shape := [[⟨0, 0⟩, ⟨1, 0⟩]]

/-- The two 3-cell pieces. -/
def TROMINOES : List Shape :=
  [[⟨0, 0⟩, ⟨1, 0⟩, ⟨2, 0⟩], [⟨0, 0⟩, ⟨1, 0⟩, ⟨0, 1⟩]]

/-- The 3x3 block. -/
def NONOMINOES : List Shape :=
  [[⟨0, 0⟩, ⟨1, 0⟩, ⟨2, 0⟩, ⟨0, 1⟩, ⟨1, 1⟩, ⟨2, 1⟩, ⟨0, 2⟩, ⟨1, 2⟩, ⟨2, 2⟩]]

/-- The seven 4-cell pieces I, O, T, S, Z, J, L. -/
def TETROMINOES : List Shape :=
  [[⟨0, 0⟩, ⟨1, 0⟩, ⟨2, 0⟩, ⟨3, 0⟩],
   [⟨0, 0⟩, ⟨1, 0⟩, ⟨0, 1⟩, ⟨1, 1⟩],
   [⟨1, 0⟩, ⟨0, 1⟩, ⟨1, 1⟩, ⟨2, 1⟩],
   [⟨1, 0⟩, ⟨2, 0⟩, ⟨0, 1⟩, ⟨1, 1⟩],
   [⟨0, 0⟩, ⟨1, 0⟩, ⟨1, 1⟩, ⟨2, 1⟩],
   [⟨0, 0⟩, ⟨0, 1⟩, ⟨1, 1⟩, ⟨2, 1⟩],
   [⟨2, 0⟩, ⟨0, 1⟩, ⟨1, 1⟩, ⟨2, 1⟩]]

/-- `ALL_SHAPES`: the 12-entry catalog, monomino first. -/
def ALL_SHAPES : List Shape :=
  MONOMINO ++ DOMINO ++ TROMINOES ++ TETROMINOES ++ NONOMINOES

/-- `SHAPES_WITHOUT_MONOMINO`: pool used by every random draw. -/
def SHAPES_WITHOUT_MONOMINO : List Shape :=
  DOMINO ++ TROMINOES ++ TETROMINOES ++ NONOMINOES

/-- `normalizeShape` from `shapes.ts`: translate so min x and y are 0. -/
def normalizeShape (shape : Shape) : Shape :=
  if shape = [] then shape
  else
    let minX := minOf (·.x) shape
    let minY := minOf (·.y) shape
    shape.map fun c => ⟨c.x - minX, c.y - minY⟩

/-- `shapesMatch` from `shapes.ts`: same length and equal normalized cell
sets (mutual containment). -/
def shapesMatch (shape1 shape2 : Shape) : Bool :=
  if shape1.length ≠ shape2.length then false
  else
    let n1 := normalizeShape shape1
    let n2 := normalizeShape shape2
    (n1.all fun c1 => n2.any fun c2 => decide (c1.x = c2.x) && decide (c1.y = c2.y)) &&
    (n2.all fun c2 => n1.any fun c1 => decide (c1.x = c2.x) && decide (c1.y = c2.y))

/-- `getShapeIndex` from `shapes.ts`: first catalog index whose entry matches
the given shape under some quarter-turn count 0-3, else -1. -/
def getShapeIndex (shape : Shape) : Int :=
  match ALL_SHAPES.findIdx? (fun baseShape =>
      (List.range 4).any fun rot => shapesMatch shape (rotateShape baseShape rot)) with
  | some i => (i : Int)
  | none => -1

set_option maxRecDepth 4000 in
/-- Claim C2: rotating any of the 12 catalog shapes by 0-3 quarter turns and
re-normalizing never changes its catalog identity: `getShapeIndex` recovers
the shape's own index. -/
theorem C2_rotation_closure : ∀ (i : Fin 12) (n : Fin 4),
    getShapeIndex (rotateShape (ALL_SHAPES.getD i.val []) n.val) = (i.val : Int) := by
  decide

/-! ## Line-clear engine (`src/board.ts`, `Game.checkAndClearLines`) -/

/-- `Board.isRowFull`: bounds-checked; every cell of the row is filled. -/
def isRowFull (g : Board) (row : Int) : Bool :=
  if h : 0 ≤ row ∧ row < 8 then
    (List.finRange 8).all fun x => g ⟨row.toNat, by omega⟩ x
  else false

/-- `Board.isColumnFull`: bounds-checked; every cell of the column is
filled. -/
def isColumnFull (g : Board) (col : Int) : Bool :=
  if h : 0 ≤ col ∧ col < 8 then
    (List.finRange 8).all fun y => g y ⟨col.toNat, by omega⟩
  else false

/-- `Board.getFullRows`: indices 0-7 of the full rows, ascending. -/
def getFullRows (g : Board) : List Int :=
  ((List.range 8).map (fun r => (r : Int))).filter (fun r => isRowFull g r)

/-- `Board.getFullColumns`: indices 0-7 of the full columns, ascending. -/
def getFullColumns (g : Board) : List Int :=
  ((List.range 8).map (fun c => (c : Int))).filter (fun c => isColumnFull g c)

/-- `Board.clearRow`: blanks a row if the index is in range. -/
def clearRow (g : Board) (row : Int) : Board :=
  if 0 ≤ row ∧ row < 8 then
    fun y x => if (y.val : Int) = row then false else g y x
  else g

/-- `Board.clearColumn`: blanks a column if the index is in range. -/
def clearColumn (g : Board) (col : Int) : Board :=
  if 0 ≤ col ∧ col < 8 then
    fun y x => if (x.val : Int) = col then false else g y x
  else g

/-- `Board.clearCell`: blanks one cell if in range. -/
def clearCell (g : Board) (cx cy : Int) : Board :=
  if 0 ≤ cx ∧ cx < 8 ∧ 0 ≤ cy ∧ cy < 8 then
    fun y x => if (y.val : Int) = cy ∧ (x.val : Int) = cx then false else g y x
  else g

/-- The row-clearing loop of `Game.checkAndClearLines`. -/
def clearRowsList (g : Board) (rows : List Int) : Board :=
  rows.foldl clearRow g

/-- The column-clearing loop of `Game.checkAndClearLines`. -/
def clearColumnsList (g : Board) (cols : List Int) : Board :=
  cols.foldl clearColumn g

/-- Rows first, then columns, as in `Game.checkAndClearLines`. -/
def clearLines (g : Board) (rows cols : List Int) : Board :=
  clearColumnsList (clearRowsList g rows) cols

lemma clearRowsList_apply (rows : List Int) (g : Board) (y x : Fin 8) :
    clearRowsList g rows y x = if (y.val : Int) ∈ rows then false else g y x := by
  induction rows generalizing g with
  | nil => simp [clearRowsList]
  | cons r rs ih =>
    show clearRowsList (clearRow g r) rs y x = _
    rw [ih]
    by_cases hmem : (y.val : Int) ∈ rs
    · simp [hmem]
    · rw [if_neg hmem]
      have hy8 := y.isLt
      by_cases hr : (y.val : Int) = r
      · have hrange : 0 ≤ r ∧ r < 8 := by omega
        simp [clearRow, hrange, hr, List.mem_cons, hmem]
      · by_cases hrange : 0 ≤ r ∧ r < 8
        · simp [clearRow, hrange, hr, List.mem_cons, hmem]
        · simp [clearRow, hrange, List.mem_cons, hmem, hr]

lemma clearColumnsList_apply (cols : List Int) (g : Board) (y x : Fin 8) :
    clearColumnsList g cols y x = if (x.val : Int) ∈ cols then false else g y x := by
  induction cols generalizing g with
  | nil => simp [clearColumnsList]
  | cons c cs ih =>
    show clearColumnsList (clearColumn g c) cs y x = _
    rw [ih]
    by_cases hmem : (x.val : Int) ∈ cs
    · simp [hmem]
    · rw [if_neg hmem]
      have hx8 := x.isLt
      by_cases hc : (x.val : Int) = c
      · have hrange : 0 ≤ c ∧ c < 8 := by omega
        simp [clearColumn, hrange, hc, List.mem_cons, hmem]
      · by_cases hrange : 0 ≤ c ∧ c < 8
        · simp [clearColumn, hrange, hc, List.mem_cons, hmem]
        · simp [clearColumn, hrange, List.mem_cons, hmem, hc]

lemma clearLines_apply (g : Board) (rows cols : List Int) (y x : Fin 8) :
    clearLines g rows cols y x =
      if (y.val : Int) ∈ rows ∨ (x.val : Int) ∈ cols then false else g y x := by
  rw [clearLines, clearColumnsList_apply, clearRowsList_apply]
  by_cases hc : (x.val : Int) ∈ cols
  · simp [hc]
  · by_cases hr : (y.val : Int) ∈ rows <;> simp [hc, hr]

lemma getFullRows_eq (g : Board) :
    getFullRows g = [(0 : Int), 1, 2, 3, 4, 5, 6, 7].filter (fun r => isRowFull g r) := rfl

lemma getFullColumns_eq (g : Board) :
    getFullColumns g = [(0 : Int), 1, 2, 3, 4, 5, 6, 7].filter (fun c => isColumnFull g c) :=
  rfl

lemma mem_getFullRows (g : Board) (r : Int) :
    r ∈ getFullRows g ↔ (0 ≤ r ∧ r < 8) ∧ isRowFull g r = true := by
  rw [getFullRows_eq]
  simp only [List.mem_filter, List.mem_cons, List.not_mem_nil, or_false]
  constructor
  · rintro ⟨hcase, hfull⟩
    exact ⟨by omega, hfull⟩
  · rintro ⟨⟨h0, h8⟩, hfull⟩
    exact ⟨by omega, hfull⟩

lemma mem_getFullColumns (g : Board) (c : Int) :
    c ∈ getFullColumns g ↔ (0 ≤ c ∧ c < 8) ∧ isColumnFull g c = true := by
  rw [getFullColumns_eq]
  simp only [List.mem_filter, List.mem_cons, List.not_mem_nil, or_false]
  constructor
  · rintro ⟨hcase, hfull⟩
    exact ⟨by omega, hfull⟩
  · rintro ⟨⟨h0, h8⟩, hfull⟩
    exact ⟨by omega, hfull⟩

lemma isRowFull_coe (g : Board) (y : Fin 8) :
    isRowFull g (y.val : Int) = (List.finRange 8).all fun x => g y x := by
  have hb : 0 ≤ (y.val : Int) ∧ (y.val : Int) < 8 := by
    have := y.isLt; omega
  rw [isRowFull, dif_pos hb]
  congr 1

lemma isColumnFull_coe (g : Board) (x : Fin 8) :
    isColumnFull g (x.val : Int) = (List.finRange 8).all fun y => g y x := by
  have hb : 0 ≤ (x.val : Int) ∧ (x.val : Int) < 8 := by
    have := x.isLt; omega
  rw [isColumnFull, dif_pos hb]
  congr 1

/-- Claim C3: after clearing exactly the full rows and columns reported by
`getFullRows`/`getFullColumns`, every cell of those rows and columns is
empty (in particular the row/column intersections, cleared twice, are
simply empty, and no cleared line remains full), and every cell outside the
cleared lines is unchanged. -/
theorem C3_clear_correctness (g : Board) :
    (∀ y x : Fin 8, (y.val : Int) ∈ getFullRows g →
        clearLines g (getFullRows g) (getFullColumns g) y x = false) ∧
    (∀ y x : Fin 8, (x.val : Int) ∈ getFullColumns g →
        clearLines g (getFullRows g) (getFullColumns g) y x = false) ∧
    (∀ r ∈ getFullRows g,
        isRowFull (clearLines g (getFullRows g) (getFullColumns g)) r = false) ∧
    (∀ c ∈ getFullColumns g,
        isColumnFull (clearLines g (getFullRows g) (getFullColumns g)) c = false) ∧
    (∀ y x : Fin 8, (y.val : Int) ∉ getFullRows g → (x.val : Int) ∉ getFullColumns g →
        clearLines g (getFullRows g) (getFullColumns g) y x = g y x) := by
  refine ⟨?_, ?_, ?_, ?_, ?_⟩
  · intro y x hy
    rw [clearLines_apply]
    simp [hy]
  · intro y x hx
    rw [clearLines_apply]
    simp [hx]
  · intro r hr
    obtain ⟨⟨h0, h8⟩, -⟩ := (mem_getFullRows g r).mp hr
    have hval : (((⟨r.toNat, by omega⟩ : Fin 8)).val : Int) = r := by
      show ((r.toNat : Nat) : Int) = r
      omega
    rw [← hval] at hr ⊢
    rw [isRowFull_coe, List.all_eq_false]
    refine ⟨0, List.mem_finRange 0, ?_⟩
    rw [clearLines_apply, if_pos (Or.inl hr)]
    simp
  · intro c hc
    obtain ⟨⟨h0, h8⟩, -⟩ := (mem_getFullColumns g c).mp hc
    have hval : (((⟨c.toNat, by omega⟩ : Fin 8)).val : Int) = c := by
      show ((c.toNat : Nat) : Int) = c
      omega
    rw [← hval] at hc ⊢
    rw [isColumnFull_coe, List.all_eq_false]
    refine ⟨0, List.mem_finRange 0, ?_⟩
    rw [clearLines_apply, if_pos (Or.inr hc)]
    simp
  · intro y x hy hx
    rw [clearLines_apply]
    simp [hy, hx]

/-- A concrete board whose row 0 and column 0 are full. -/
def crossBoard : Board := fun y x => decide (y.val = 0) || decide (x.val = 0)

/-- Witness for C3 on `crossBoard`: row 0 and column 0 are reported full,
the cleared cells (including the intersection) end up empty, the cleared
lines are no longer full, and the untouched cell (1,1) keeps its value. -/
theorem C3_clear_correctness_witness :
    clearLines crossBoard (getFullRows crossBoard) (getFullColumns crossBoard) 0 3 = false ∧
    clearLines crossBoard (getFullRows crossBoard) (getFullColumns crossBoard) 0 0 = false ∧
    isRowFull (clearLines crossBoard (getFullRows crossBoard) (getFullColumns crossBoard))
      0 = false ∧
    isColumnFull (clearLines crossBoard (getFullRows crossBoard) (getFullColumns crossBoard))
      0 = false ∧
    clearLines crossBoard (getFullRows crossBoard) (getFullColumns crossBoard) 1 1 =
      crossBoard 1 1 :=
  ⟨(C3_clear_correctness crossBoard).1 0 3 (by decide),
   (C3_clear_correctness crossBoard).1 0 0 (by decide),
   (C3_clear_correctness crossBoard).2.2.1 0 (by decide),
   (C3_clear_correctness crossBoard).2.2.2.1 0 (by decide),
   (C3_clear_correctness crossBoard).2.2.2.2 1 1 (by decide) (by decide)⟩

/-! ## Placed blocks, configuration, colors -/

/-- `GAMEPLAY_CONFIG.shapesPerTurn` from `config.ts`. -/
def shapesPerTurn : Nat := 3

/-- `GAMEPLAY_CONFIG.levelProgressPerLine` (the literal `6.6666667`). -/
def levelProgressPerLine : Rat := mkRat 66666667 10000000

/-- `GAMEPLAY_CONFIG.levelProgressThreshold`. -/
def levelProgressThreshold : Rat := 100

/-- `GAMEPLAY_CONFIG.darknessReduction` (the literal `0.1`). -/
def darknessReduction : Rat := mkRat 1 10

/-- `Math.max` on the rationals standing in for JS numbers, phrased with
the kernel-computable comparison `Rat.blt`. -/
def ratMax (a b : Rat) : Rat := if Rat.blt a b then b else a

/-- `GAMEPLAY_CONFIG.shapesPerValueTier`. -/
def shapesPerValueTier : Nat := 10

/-- `GAMEPLAY_CONFIG.pointsPerTier`. -/
def pointsPerTier : Int := 10

/-- `PlacedBlock` as created by `Game.handlePlaceShape`: remaining cells,
absolute position, display color, base point value, accumulated line-clear
bonuses, the total-shapes-placed counter at creation, catalog index, and
the decaying darkness multiplier (a JS float, modelled by `Rat`). -/
structure PlacedBlock where
  shape : Shape
  position : Pos
  color : String
  pointValue : Int
  lineClearBonuses : Int
  totalShapesPlacedAtPlacement : Nat
  shapeIndex : Int
  darkness : Rat
deriving DecidableEq, Repr

/-- `COLOR_SETS` from `colorConfig.ts`: ten 24-entry palettes, one per
level band (level 10+ keeps the last). -/
def COLOR_SETS : List (List String) :=
  [["#3b82f6", "#60a5fa", "#2563eb", "#93c5fd", "#3b82f6", "#60a5fa", "#2563eb", "#93c5fd",
    "#60a5fa", "#3b82f6", "#93c5fd", "#2563eb", "#60a5fa", "#3b82f6", "#93c5fd", "#2563eb",
    "#3b82f6", "#60a5fa", "#2563eb", "#93c5fd", "#3b82f6", "#60a5fa", "#2563eb", "#93c5fd"],
   ["#22c55e", "#4ade80", "#16a34a", "#86efac", "#22c55e", "#4ade80", "#16a34a", "#86efac",
    "#4ade80", "#22c55e", "#86efac", "#16a34a", "#4ade80", "#22c55e", "#86efac", "#16a34a",
    "#22c55e", "#4ade80", "#16a34a", "#86efac", "#22c55e", "#4ade80", "#16a34a", "#86efac"],
   ["#8b5cf6", "#a78bfa", "#7c3aed", "#c4b5fd", "#8b5cf6", "#a78bfa", "#7c3aed", "#c4b5fd",
    "#a78bfa", "#8b5cf6", "#c4b5fd", "#7c3aed", "#a78bfa", "#8b5cf6", "#c4b5fd", "#7c3aed",
    "#8b5cf6", "#a78bfa", "#7c3aed", "#c4b5fd", "#8b5cf6", "#a78bfa", "#7c3aed", "#c4b5fd"],
   ["#ef4444", "#f87171", "#dc2626", "#fca5a5", "#ef4444", "#f87171", "#dc2626", "#fca5a5",
    "#f87171", "#ef4444", "#fca5a5", "#dc2626", "#f87171", "#ef4444", "#fca5a5", "#dc2626",
    "#ef4444", "#f87171", "#dc2626", "#fca5a5", "#ef4444", "#f87171", "#dc2626", "#fca5a5"],
   ["#f97316", "#fb923c", "#ea580c", "#fdba74", "#f97316", "#fb923c", "#ea580c", "#fdba74",
    "#fb923c", "#f97316", "#fdba74", "#ea580c", "#fb923c", "#f97316", "#fdba74", "#ea580c",
    "#f97316", "#fb923c", "#ea580c", "#fdba74", "#f97316", "#fb923c", "#ea580c", "#fdba74"],
   ["#eab308", "#facc15", "#ca8a04", "#fde047", "#eab308", "#facc15", "#ca8a04", "#fde047",
    "#facc15", "#eab308", "#fde047", "#ca8a04", "#facc15", "#eab308", "#fde047", "#ca8a04",
    "#eab308", "#facc15", "#ca8a04", "#fde047", "#eab308", "#facc15", "#ca8a04", "#fde047"],
   ["#06b6d4", "#22d3ee", "#0891b2", "#67e8f9", "#06b6d4", "#22d3ee", "#0891b2", "#67e8f9",
    "#22d3ee", "#06b6d4", "#67e8f9", "#0891b2", "#22d3ee", "#06b6d4", "#67e8f9", "#0891b2",
    "#06b6d4", "#22d3ee", "#0891b2", "#67e8f9", "#06b6d4", "#22d3ee", "#0891b2", "#67e8f9"],
   ["#ec4899", "#f472b6", "#db2777", "#f9a8d4", "#ec4899", "#f472b6", "#db2777", "#f9a8d4",
    "#f472b6", "#ec4899", "#f9a8d4", "#db2777", "#f472b6", "#ec4899", "#f9a8d4", "#db2777",
    "#ec4899", "#f472b6", "#db2777", "#f9a8d4", "#ec4899", "#f472b6", "#db2777", "#f9a8d4"],
   ["#14b8a6", "#2dd4bf", "#0f766e", "#5eead4", "#14b8a6", "#2dd4bf", "#0f766e", "#5eead4",
    "#2dd4bf", "#14b8a6", "#5eead4", "#0f766e", "#2dd4bf", "#14b8a6", "#5eead4", "#0f766e",
    "#14b8a6", "#2dd4bf", "#0f766e", "#5eead4", "#14b8a6", "#2dd4bf", "#0f766e", "#5eead4"],
   ["#6366f1", "#818cf8", "#4f46e5", "#a5b4fc", "#6366f1", "#818cf8", "#4f46e5", "#a5b4fc",
    "#818cf8", "#6366f1", "#a5b4fc", "#4f46e5", "#818cf8", "#6366f1", "#a5b4fc", "#4f46e5",
    "#6366f1", "#818cf8", "#4f46e5", "#a5b4fc", "#6366f1", "#818cf8", "#4f46e5", "#a5b4fc"]]

/-- `getColorSetIndex`/`getColorSet` from `colorConfig.ts`:
`min(level - 1, 9)` (levels are 1-based; the core never calls this with
level 0). -/
def colorSetColors (level : Nat) : List String :=
  COLOR_SETS.getD (min (level - 1) 9) []

/-- `getShapeColor` from `shapes.ts` after `updateColorScheme(level)`:
`SHAPE_COLORS[shapeIndex % SHAPE_COLORS.length]`.  A negative index (a
catalog miss) indexes outside the array in JS, yielding `undefined`;
modelled by the empty string. -/
def getShapeColor (level : Nat) (shapeIndex : Int) : String :=
  if 0 ≤ shapeIndex then
    (colorSetColors level).getD (shapeIndex.toNat % (colorSetColors level).length) ""
  else ""

/-! ## Scoring (`src/scoring.ts`) -/

/-- The per-block current point value computed inside `calculateScore`:
base + line-clear bonuses + tier increments * points-per-tier. -/
def blockCurrentValue (totalShapesPlaced : Nat) (b : PlacedBlock) : Int :=
  let placementLevel : Int := (b.totalShapesPlacedAtPlacement / shapesPerValueTier : Nat)
  let currentLevel : Int := (totalShapesPlaced / shapesPerValueTier : Nat)
  b.pointValue + b.lineClearBonuses + (currentLevel - placementLevel) * pointsPerTier

/-- The per-block membership test inside `calculateScore`: some cell lies in
a cleared row or column. -/
def blockInClearedLine (fullRows fullColumns : List Int) (b : PlacedBlock) : Bool :=
  b.shape.any fun cell =>
    fullRows.contains (b.position.y + cell.y) || fullColumns.contains (b.position.x + cell.x)

/-- `calculateScore` from `scoring.ts`.  The `boardCleared` argument is
accepted and ignored, exactly as in the source. -/
def calculateScore (fullRows fullColumns : List Int) (placedBlocks : List PlacedBlock)
    (boardCleared : Bool) (totalShapesPlaced : Nat) : Int :=
  if fullRows = [] ∧ fullColumns = [] then 0
  else
    (placedBlocks.map fun b =>
      if blockInClearedLine fullRows fullColumns b then blockCurrentValue totalShapesPlaced b
      else 0).sum

/-! ## Block trimming (`Game.removeCellsFromShapes`) -/

/-- The body of the `map` in `Game.removeCellsFromShapes`: keep only cells
outside every cleared row and column; `null` when no cell survives. -/
def trimBlock (fullRows fullColumns : List Int) (b : PlacedBlock) : Option PlacedBlock :=
  let remainingCells := b.shape.filter fun cell =>
    !(fullRows.contains (b.position.y + cell.y)) &&
    !(fullColumns.contains (b.position.x + cell.x))
  if remainingCells = [] then none
  else some { b with shape := remainingCells }

/-- `Game.removeCellsFromShapes`: map each block through `trimBlock` and
drop the destroyed (`null`) ones. -/
def removeCellsFromShapes (fullRows fullColumns : List Int)
    (blocks : List PlacedBlock) : List PlacedBlock :=
  (blocks.map (trimBlock fullRows fullColumns)).reduceOption

/-- Spec-side counter for C6: the number of the block cells falling in a
cleared row or column. -/
def clearedCellCount (fullRows fullColumns : List Int) (b : PlacedBlock) : Nat :=
  (b.shape.filter fun cell =>
    fullRows.contains (b.position.y + cell.y) ||
    fullColumns.contains (b.position.x + cell.x)).length

lemma trimBlock_shape_length (fullRows fullColumns : List Int) (b : PlacedBlock) :
    (b.shape.filter fun cell =>
      !(fullRows.contains (b.position.y + cell.y)) &&
      !(fullColumns.contains (b.position.x + cell.x))).length =
    b.shape.length - clearedCellCount fullRows fullColumns b := by
  rw [clearedCellCount]
  have hpart := List.length_eq_length_filter_add (l := b.shape)
    (fun cell => fullRows.contains (b.position.y + cell.y) ||
      fullColumns.contains (b.position.x + cell.x))
  have hcongr : (b.shape.filter fun cell =>
      !(fullRows.contains (b.position.y + cell.y)) &&
      !(fullColumns.contains (b.position.x + cell.x))) =
      (b.shape.filter fun cell =>
        !(fullRows.contains (b.position.y + cell.y) ||
          fullColumns.contains (b.position.x + cell.x))) := by
    apply List.filter_congr
    intro cell _
    cases fullRows.contains (b.position.y + cell.y) <;>
      cases fullColumns.contains (b.position.x + cell.x) <;> rfl
  rw [hcongr]
  omega

/-- Claim C6: trimming a block with `k` cells of which `c` lie in cleared
lines leaves exactly `k - c` cells, the block is destroyed (`none`, hence
dropped from the collection) exactly when `c = k`, and
`removeCellsFromShapes` is precisely the per-block trim with destroyed
blocks removed. -/
theorem C6_conservation_under_partial_clear (fullRows fullColumns : List Int)
    (blocks : List PlacedBlock) :
    removeCellsFromShapes fullRows fullColumns blocks =
      blocks.filterMap (trimBlock fullRows fullColumns) ∧
    ∀ b : PlacedBlock,
      (trimBlock fullRows fullColumns b = none ↔
        clearedCellCount fullRows fullColumns b = b.shape.length) ∧
      (∀ b', trimBlock fullRows fullColumns b = some b' →
        b'.shape.length = b.shape.length - clearedCellCount fullRows fullColumns b ∧
        0 < b'.shape.length) := by
  constructor
  · rw [removeCellsFromShapes, List.reduceOption, List.filterMap_map]
    rfl
  · intro b
    have hlen := trimBlock_shape_length fullRows fullColumns b
    have hc_le : clearedCellCount fullRows fullColumns b ≤ b.shape.length :=
      List.length_filter_le _ _
    constructor
    · rw [trimBlock]
      constructor
      · intro hnone
        split at hnone
        · rename_i hnil
          have : (b.shape.filter fun cell =>
              !(fullRows.contains (b.position.y + cell.y)) &&
              !(fullColumns.contains (b.position.x + cell.x))).length = 0 := by
            rw [hnil]; rfl
          omega
        · exact absurd hnone (by simp)
      · intro hck
        have hzero : (b.shape.filter fun cell =>
            !(fullRows.contains (b.position.y + cell.y)) &&
            !(fullColumns.contains (b.position.x + cell.x))).length = 0 := by omega
        rw [if_pos (List.length_eq_zero.mp hzero)]
    · intro b' hsome
      rw [trimBlock] at hsome
      split at hsome
      · exact absurd hsome (by simp)
      · rename_i hne
        have hb' : b' = { b with shape := b.shape.filter fun cell =>
            !(fullRows.contains (b.position.y + cell.y)) &&
            !(fullColumns.contains (b.position.x + cell.x)) } :=
          (Option.some.injEq _ _).mp hsome.symm
        subst hb'
        exact ⟨hlen, List.length_pos.mpr hne⟩

/-- A sample placed block: a horizontal I tetromino at the origin. -/
def iBlock : PlacedBlock :=
  { shape := [⟨0, 0⟩, ⟨1, 0⟩, ⟨2, 0⟩, ⟨3, 0⟩], position := ⟨0, 0⟩, color := "#3b82f6",
    pointValue := 4, lineClearBonuses := 0, totalShapesPlacedAtPlacement := 0,
    shapeIndex := 4, darkness := 1 }

/-- Witness for C6: the I tetromino at the origin with row 0 cleared loses
all 4 cells and is destroyed, while the same block with only column 0
cleared keeps 3 cells. -/
theorem C6_conservation_witness :
    (trimBlock [0] [0] iBlock = none ↔
      clearedCellCount [0] [0] iBlock = iBlock.shape.length) ∧
    ((trimBlock [] [0] iBlock).map (fun b => b.shape.length) = some 3 ∧
      iBlock.shape.length - clearedCellCount [] [0] iBlock = 3) := by
  constructor
  · exact ((C6_conservation_under_partial_clear [0] [0] []).2 iBlock).1
  · constructor
    · have h := ((C6_conservation_under_partial_clear [] [0] []).2 iBlock).2
      have hsome : trimBlock [] [0] iBlock =
          some { iBlock with shape := [⟨1, 0⟩, ⟨2, 0⟩, ⟨3, 0⟩] } := by decide
      have h2 := h _ hsome
      rw [hsome]
      simp only [Option.map_some]
      exact congrArg some (h2.1.trans (by decide))
    · decide


/-! ## Game state and the clear event (`Game.checkAndClearLines`) -/

/-- The slice of the `Game` state that the clear event reads and writes. -/
structure GameSt where
  board : Board
  placedBlocks : List PlacedBlock
  score : Int
  gameOver : Bool
  level : Nat
  levelProgress : Rat
  totalShapesPlaced : Nat
  linesCleared : Nat

/-- `Game.willBoardBeCleared`: every cell of every block lies in a cleared
row or column (true when there are no blocks). -/
def willBoardBeCleared (blocks : List PlacedBlock)
    (fullRows fullColumns : List Int) : Bool :=
  if blocks = [] then true
  else blocks.all fun b => b.shape.all fun cell =>
    fullRows.contains (b.position.y + cell.y) ||
    fullColumns.contains (b.position.x + cell.x)

/-- The `while (levelProgress >= threshold)` roll-over loop of
`checkAndClearLines`.  Each pass subtracts the threshold (100). -/
def levelUpLoop : Nat → Nat → Rat → Nat × Rat
  | 0, level, progress => (level, progress)
  | fuel + 1, level, progress =>
    if Rat.blt progress levelProgressThreshold then (level, progress)
    else levelUpLoop fuel (level + 1) (progress - levelProgressThreshold)

/-- The roll-over loop run with enough fuel to terminate on its own: each
pass removes 100 ≥ 1 from a value that stays nonnegative while iterating,
and `progress = num/den ≤ num` for `den ≥ 1`, so `progress.num.toNat + 1`
passes always suffice; extra fuel is never consumed once
`progress < threshold`. -/
def levelUpdate (level : Nat) (progress : Rat) : Nat × Rat :=
  levelUpLoop (progress.num.toNat + 1) level progress

/-- The body of `Game.checkAndClearLines` once full lines were found:
clear the board, add `calculateScore` (computed on the pre-update blocks)
to the score, bump every block's darkness and bonus counter, roll level
progress, recolor every block when the level changed, then trim the
cleared cells out of the blocks.  (With animations enabled the source
defers `removeCellsFromShapes` by a timer; the resulting block list is the
same.) -/
def applyClear (st : GameSt) (fullRows fullColumns : List Int) : GameSt :=
  let linesCleared := fullRows.length + fullColumns.length
  let board1 := clearLines st.board fullRows fullColumns
  let boardCleared := willBoardBeCleared st.placedBlocks fullRows fullColumns
  let points := calculateScore fullRows fullColumns st.placedBlocks boardCleared
    st.totalShapesPlaced
  let blocks1 := st.placedBlocks.map fun b =>
    { b with darkness := ratMax 0 (b.darkness - darknessReduction),
             lineClearBonuses := b.lineClearBonuses + (linesCleared : Int) }
  let lp := levelUpdate st.level
    (st.levelProgress + (linesCleared : Rat) * levelProgressPerLine)
  let blocks2 := if lp.1 ≠ st.level then
      blocks1.map fun b => { b with color := getShapeColor lp.1 b.shapeIndex }
    else blocks1
  let blocks3 := removeCellsFromShapes fullRows fullColumns blocks2
  { st with board := board1, placedBlocks := blocks3, score := st.score + points,
            level := lp.1, levelProgress := lp.2,
            linesCleared := st.linesCleared + linesCleared }

/-- `Game.checkAndClearLines`: a no-op when the game is over or when no
row or column is full. -/
def checkAndClearLines (st : GameSt) : GameSt :=
  if st.gameOver then st
  else
    if getFullRows st.board = [] ∧ getFullColumns st.board = [] then st
    else applyClear st (getFullRows st.board) (getFullColumns st.board)

/-- Spec-side current point value from §4.5 of the spec: base point value +
accumulated line-clear bonus count + tier increments * points-per-tier. -/
def specCurrentPointValue (totalShapesPlaced : Nat) (b : PlacedBlock) : Int :=
  b.pointValue + b.lineClearBonuses +
    (((totalShapesPlaced / shapesPerValueTier : Nat) : Int) -
     ((b.totalShapesPlacedAtPlacement / shapesPerValueTier : Nat) : Int)) * pointsPerTier

/-- Spec-side score delta of C4: the sum of current point values over the
blocks with at least one cell in a cleared row or column. -/
def specScoreDelta (fullRows fullColumns : List Int) (totalShapesPlaced : Nat)
    (blocks : List PlacedBlock) : Int :=
  ((blocks.filter (blockInClearedLine fullRows fullColumns)).map
    (specCurrentPointValue totalShapesPlaced)).sum

lemma blockCurrentValue_eq_spec (n : Nat) (b : PlacedBlock) :
    blockCurrentValue n b = specCurrentPointValue n b := rfl

lemma sum_map_ite_eq_filter (p : PlacedBlock → Bool) (f : PlacedBlock → Int)
    (l : List PlacedBlock) :
    (l.map fun b => if p b then f b else 0).sum = ((l.filter p).map f).sum := by
  induction l with
  | nil => rfl
  | cons a l ih =>
    by_cases h : p a <;> simp [h, ih, List.filter_cons]

lemma checkAndClearLines_score (st : GameSt) (hgo : st.gameOver = false)
    (hlines : ¬(getFullRows st.board = [] ∧ getFullColumns st.board = [])) :
    (checkAndClearLines st).score = st.score +
      calculateScore (getFullRows st.board) (getFullColumns st.board) st.placedBlocks
        (willBoardBeCleared st.placedBlocks (getFullRows st.board) (getFullColumns st.board))
        st.totalShapesPlaced := by
  rw [checkAndClearLines, hgo]
  simp only [Bool.false_eq_true, if_false, if_neg hlines]
  rfl

/-- Claim C4: the score delta of a clear event is exactly the sum of the
current point values (base + bonuses + tier increments * 10) of the blocks
touching a cleared line, computed on the block states before trimming and
before the bonus bump; it is 0 when no line is full; and it is nonnegative
for blocks with the creation-time invariants (nonnegative base value and
bonus count, creation counter at most the current counter). -/
theorem C4_score_delta (st : GameSt) (hgo : st.gameOver = false)
    (hblocks : ∀ b ∈ st.placedBlocks, 0 ≤ b.pointValue ∧ 0 ≤ b.lineClearBonuses ∧
      b.totalShapesPlacedAtPlacement ≤ st.totalShapesPlaced) :
    (checkAndClearLines st).score - st.score =
      specScoreDelta (getFullRows st.board) (getFullColumns st.board)
        st.totalShapesPlaced st.placedBlocks ∧
    (getFullRows st.board = [] ∧ getFullColumns st.board = [] →
      (checkAndClearLines st).score - st.score = 0) ∧
    0 ≤ (checkAndClearLines st).score - st.score := by
  have hdelta : (checkAndClearLines st).score - st.score =
      specScoreDelta (getFullRows st.board) (getFullColumns st.board)
        st.totalShapesPlaced st.placedBlocks := by
    by_cases hlines : getFullRows st.board = [] ∧ getFullColumns st.board = []
    · have hnoop : checkAndClearLines st = st := by
        rw [checkAndClearLines, hgo]
        simp only [Bool.false_eq_true, if_false, if_pos hlines]
      rw [hnoop]
      have hfilter : st.placedBlocks.filter
          (blockInClearedLine (getFullRows st.board) (getFullColumns st.board)) = [] := by
        rw [List.filter_eq_nil_iff]
        intro b _
        rw [hlines.1, hlines.2, blockInClearedLine]
        simp
      rw [specScoreDelta, hfilter]
      simp
    · rw [checkAndClearLines_score st hgo hlines, calculateScore, if_neg hlines,
        specScoreDelta]
      rw [← sum_map_ite_eq_filter]
      ring_nf
      rfl
  refine ⟨hdelta, fun h => ?_, ?_⟩
  · rw [hdelta]
    have hfilter : st.placedBlocks.filter
        (blockInClearedLine (getFullRows st.board) (getFullColumns st.board)) = [] := by
      rw [List.filter_eq_nil_iff]
      intro b _
      rw [h.1, h.2, blockInClearedLine]
      simp
    rw [specScoreDelta, hfilter]
    rfl
  · rw [hdelta, specScoreDelta]
    apply List.sum_nonneg
    intro v hv
    obtain ⟨b, hb, rfl⟩ := List.mem_map.mp hv
    obtain ⟨hpv, hbo, hle⟩ := hblocks b (List.mem_of_mem_filter hb)
    have htier : ((b.totalShapesPlacedAtPlacement / shapesPerValueTier : Nat) : Int) ≤
        ((st.totalShapesPlaced / shapesPerValueTier : Nat) : Int) := by
      have := Nat.div_le_div_right (c := shapesPerValueTier) hle
      exact_mod_cast this
    rw [specCurrentPointValue, pointsPerTier]
    nlinarith

lemma mem_removeCellsFromShapes (fullRows fullColumns : List Int)
    (blocks : List PlacedBlock) (b' : PlacedBlock) :
    b' ∈ removeCellsFromShapes fullRows fullColumns blocks ↔
      ∃ b ∈ blocks, trimBlock fullRows fullColumns b = some b' := by
  rw [removeCellsFromShapes, List.reduceOption, List.filterMap_map, List.mem_filterMap]
  rfl

lemma trimBlock_some_eq (fullRows fullColumns : List Int) (b b' : PlacedBlock)
    (h : trimBlock fullRows fullColumns b = some b') :
    b' = { b with shape := b.shape.filter fun cell =>
      !(fullRows.contains (b.position.y + cell.y)) &&
      !(fullColumns.contains (b.position.x + cell.x)) } := by
  rw [trimBlock] at h
  split at h
  · exact absurd h (by simp)
  · exact ((Option.some.injEq _ _).mp h).symm

/-- Claim C8 (amended): in a clear event, every surviving block keeps its
base point value, hand-generation counter, position and catalog index; its
bonus counter grows by the number of lines cleared and its darkness drops
by the fixed decrement floored at 0; its cells are trimmed to those outside
the cleared lines; and its display color is kept when the level did not
change but is refreshed from the new level's palette when it did.  (The
claim as frozen says no field other than the bonus counter and darkness
changes; the color refresh on a level change refutes that, see the
counterexample.) -/
theorem C8_block_metadata (st : GameSt) (hgo : st.gameOver = false)
    (hlines : ¬(getFullRows st.board = [] ∧ getFullColumns st.board = [])) :
    ∀ b' ∈ (checkAndClearLines st).placedBlocks,
      ∃ b ∈ st.placedBlocks,
        b'.pointValue = b.pointValue ∧
        b'.totalShapesPlacedAtPlacement = b.totalShapesPlacedAtPlacement ∧
        b'.position = b.position ∧
        b'.shapeIndex = b.shapeIndex ∧
        b'.lineClearBonuses = b.lineClearBonuses +
          (((getFullRows st.board).length + (getFullColumns st.board).length : Nat) : Int) ∧
        b'.darkness = ratMax 0 (b.darkness - darknessReduction) ∧
        b'.shape = (b.shape.filter fun cell =>
          !((getFullRows st.board).contains (b.position.y + cell.y)) &&
          !((getFullColumns st.board).contains (b.position.x + cell.x))) ∧
        ((checkAndClearLines st).level = st.level → b'.color = b.color) ∧
        ((checkAndClearLines st).level ≠ st.level →
          b'.color = getShapeColor ((checkAndClearLines st).level) b.shapeIndex) := by
  intro b' hb'
  rw [checkAndClearLines, hgo] at hb' ⊢
  simp only [Bool.false_eq_true, if_false, if_neg hlines] at hb' ⊢
  rw [applyClear] at hb' ⊢
  simp only at hb' ⊢
  rw [mem_removeCellsFromShapes] at hb'
  obtain ⟨b2, hb2, htrim⟩ := hb'
  by_cases hlevel : (levelUpdate st.level (st.levelProgress +
      (((getFullRows st.board).length + (getFullColumns st.board).length : Nat) : Rat) *
        levelProgressPerLine)).1 = st.level
  · rw [if_neg (by simpa using hlevel)] at hb2
    obtain ⟨b, hb, rfl⟩ := List.mem_map.mp hb2
    have hb'eq := trimBlock_some_eq _ _ _ _ htrim
    subst hb'eq
    refine ⟨b, hb, rfl, rfl, rfl, rfl, rfl, rfl, rfl, fun _ => rfl, fun h => absurd hlevel h⟩
  · rw [if_pos (by simpa using hlevel)] at hb2
    rw [List.map_map] at hb2
    obtain ⟨b, hb, rfl⟩ := List.mem_map.mp hb2
    have hb'eq := trimBlock_some_eq _ _ _ _ htrim
    subst hb'eq
    exact ⟨b, hb, rfl, rfl, rfl, rfl, rfl, rfl, rfl, fun h => absurd h hlevel, fun _ => rfl⟩

/-- Sample block: an I tetromino occupying cells (0..3, 0). -/
def rowBlockA : PlacedBlock :=
  { shape := [⟨0, 0⟩, ⟨1, 0⟩, ⟨2, 0⟩, ⟨3, 0⟩], position := ⟨0, 0⟩, color := "#3b82f6",
    pointValue := 4, lineClearBonuses := 0, totalShapesPlacedAtPlacement := 0,
    shapeIndex := 4, darkness := 1 }

/-- Sample block: an I tetromino occupying cells (4..7, 0). -/
def rowBlockB : PlacedBlock := { rowBlockA with position := ⟨4, 0⟩ }

/-- Sample block: an O square at (0,2)-(1,3), colored with the level-1
palette entry for catalog index 5. -/
def squareBlock : PlacedBlock :=
  { shape := [⟨0, 0⟩, ⟨1, 0⟩, ⟨0, 1⟩, ⟨1, 1⟩], position := ⟨0, 2⟩, color := "#60a5fa",
    pointValue := 5, lineClearBonuses := 0, totalShapesPlacedAtPlacement := 0,
    shapeIndex := 5, darkness := 1 }

/-- A state about to clear row 0 whose level progress (99) crosses the
threshold with one more line, forcing a level-up during the clear. -/
def stLevelUp : GameSt :=
  { board := fun y x => decide (y.val = 0) ||
      decide ((y.val = 2 ∨ y.val = 3) ∧ x.val ≤ 1),
    placedBlocks := [rowBlockA, rowBlockB, squareBlock],
    score := 0, gameOver := false, level := 1, levelProgress := 99,
    totalShapesPlaced := 3, linesCleared := 0 }

set_option maxRecDepth 8000 in
unseal Rat.add Rat.sub Rat.mul Rat.inv in
/-- Counterexample to C8 as frozen: clearing row 0 of `stLevelUp` raises the
level from 1 to 2, and the surviving block at (0,2) has its display color
mutated from the level-1 palette entry to the level-2 one — a field other
than the bonus counter and the darkness multiplier changed. -/
theorem C8_color_counterexample :
    ((checkAndClearLines stLevelUp).placedBlocks.map fun b => (b.position, b.color)) =
      [(⟨0, 2⟩, "#4ade80")] ∧
    (stLevelUp.placedBlocks.map fun b => (b.position, b.color)) =
      [(⟨0, 0⟩, "#3b82f6"), (⟨4, 0⟩, "#3b82f6"), (⟨0, 2⟩, "#60a5fa")] ∧
    ("#4ade80" : String) ≠ "#60a5fa" := by
  decide

/-- The survivor of the `stLevelUp` clear: the O square with its bonus
bumped by the one cleared line, its darkness reduced by 0.1, and its color
refreshed to the level-2 palette. -/
def survivorC8 : PlacedBlock :=
  { shape := [⟨0, 0⟩, ⟨1, 0⟩, ⟨0, 1⟩, ⟨1, 1⟩], position := ⟨0, 2⟩, color := "#4ade80",
    pointValue := 5, lineClearBonuses := 1, totalShapesPlacedAtPlacement := 0,
    shapeIndex := 5, darkness := mkRat 9 10 }

set_option maxRecDepth 8000 in
unseal Rat.add Rat.sub Rat.mul Rat.inv in
/-- Witness for the amended C8 at `stLevelUp` and its surviving block. -/
theorem C8_block_metadata_witness :
    ∃ b ∈ stLevelUp.placedBlocks,
      survivorC8.pointValue = b.pointValue ∧
      survivorC8.totalShapesPlacedAtPlacement = b.totalShapesPlacedAtPlacement ∧
      survivorC8.position = b.position ∧
      survivorC8.shapeIndex = b.shapeIndex ∧
      survivorC8.lineClearBonuses = b.lineClearBonuses +
        (((getFullRows stLevelUp.board).length +
          (getFullColumns stLevelUp.board).length : Nat) : Int) ∧
      survivorC8.darkness = ratMax 0 (b.darkness - darknessReduction) ∧
      survivorC8.shape = (b.shape.filter fun cell =>
        !((getFullRows stLevelUp.board).contains (b.position.y + cell.y)) &&
        !((getFullColumns stLevelUp.board).contains (b.position.x + cell.x))) ∧
      ((checkAndClearLines stLevelUp).level = stLevelUp.level →
        survivorC8.color = b.color) ∧
      ((checkAndClearLines stLevelUp).level ≠ stLevelUp.level →
        survivorC8.color = getShapeColor ((checkAndClearLines stLevelUp).level)
          b.shapeIndex) :=
  C8_block_metadata stLevelUp rfl (by decide) survivorC8 (by decide)

set_option maxRecDepth 8000 in
unseal Rat.add Rat.sub Rat.mul Rat.inv in
/-- Witness for C4 at `stLevelUp`: the clear of row 0 awards the sum of
current point values of the three blocks meeting row 0. -/
theorem C4_score_delta_witness :
    ((checkAndClearLines stLevelUp).score - stLevelUp.score =
      specScoreDelta (getFullRows stLevelUp.board) (getFullColumns stLevelUp.board)
        stLevelUp.totalShapesPlaced stLevelUp.placedBlocks) ∧
    (getFullRows stLevelUp.board = [] ∧ getFullColumns stLevelUp.board = [] →
      (checkAndClearLines stLevelUp).score - stLevelUp.score = 0) ∧
    0 ≤ (checkAndClearLines stLevelUp).score - stLevelUp.score :=
  C4_score_delta stLevelUp rfl (by decide)

/-! ## Game-over bonus (`Game.awardGameOverBonus`) -/

/-- The per-cell point value computed by `awardGameOverBonus`: base value
plus tier increments only — unlike `calculateScore`, the accumulated
line-clear bonus count is not added. -/
def gameOverCellValue (totalShapesPlaced : Nat) (b : PlacedBlock) : Int :=
  b.pointValue +
    (((totalShapesPlaced / shapesPerValueTier : Nat) : Int) -
     ((b.totalShapesPlacedAtPlacement / shapesPerValueTier : Nat) : Int)) * pointsPerTier

/-- The `cellsToClear` list of `awardGameOverBonus` before the shuffle: one
entry per remaining cell of every placed block, carrying its absolute
coordinates and the per-cell value above. -/
def gameOverCells (st : GameSt) : List (Int × Int × Int) :=
  st.placedBlocks.flatMap fun b =>
    b.shape.map fun cell =>
      (b.position.x + cell.x, b.position.y + cell.y,
        gameOverCellValue st.totalShapesPlaced b)

/-- The total score added by the one-at-a-time pops before the board reset.
The Fisher-Yates shuffle in the source permutes `cellsToClear`; each cell's
value is added to the score exactly once, so the total is the sum over the
unshuffled list. -/
def awardGameOverBonusTotal (st : GameSt) : Int :=
  ((gameOverCells st).map fun c => c.2.2).sum

/-- Spec-side total of C7: every remaining cell awarded its block's §4.5
current point value, line-clear bonus count included. -/
def specGameOverTotal (st : GameSt) : Int :=
  (st.placedBlocks.map fun b =>
    (b.shape.length : Int) * specCurrentPointValue st.totalShapesPlaced b).sum

lemma sum_cellValues (l : List Pos) (f : Pos → Int × Int × Int) (v : Int)
    (hf : ∀ c, (f c).2.2 = v) :
    ((l.map f).map fun c => c.2.2).sum = (l.length : Int) * v := by
  induction l with
  | nil => simp
  | cons c cs ih =>
    simp only [List.map_cons, List.sum_cons, ih, hf, List.length_cons]
    push_cast
    ring

/-- A domino block that survived one line clear (bonus count 1). -/
def bonusDomino : PlacedBlock :=
  { shape := [⟨0, 0⟩, ⟨1, 0⟩], position := ⟨0, 0⟩, color := "#3b82f6",
    pointValue := 2, lineClearBonuses := 1, totalShapesPlacedAtPlacement := 0,
    shapeIndex := 1, darkness := 1 }

/-- A state already in game over holding only `bonusDomino`. -/
def stBonusDomino : GameSt :=
  { board := fun y x => decide (y.val = 0 ∧ x.val ≤ 1),
    placedBlocks := [bonusDomino],
    score := 0, gameOver := true, level := 1, levelProgress := 0,
    totalShapesPlaced := 3, linesCleared := 1 }

/-- Counterexample to C7 as frozen: on `stBonusDomino` the code awards
2 + 2 = 4 points (base value per cell, bonuses dropped), while the claimed
sum of current point values (base + bonus count) is 3 + 3 = 6. -/
theorem C7_bonus_counterexample :
    awardGameOverBonusTotal stBonusDomino = 4 ∧
    specGameOverTotal stBonusDomino = 6 ∧ (4 : Int) ≠ 6 := by
  decide

/-- Claim C7 (amended): on game over every remaining cell is awarded its
block's base point value plus tier increments times points-per-tier — the
accumulated line-clear bonus count is not included — and the total added to
the score before the reset is the sum of these per-cell values; the
per-cell value agrees with the §4.5 current point value exactly for blocks
whose bonus count is 0. -/
theorem C7_game_over_bonus (st : GameSt) :
    awardGameOverBonusTotal st =
      (st.placedBlocks.map fun b =>
        (b.shape.length : Int) * gameOverCellValue st.totalShapesPlaced b).sum ∧
    (∀ b ∈ st.placedBlocks, b.lineClearBonuses = 0 →
      gameOverCellValue st.totalShapesPlaced b =
        specCurrentPointValue st.totalShapesPlaced b) := by
  constructor
  · rw [awardGameOverBonusTotal, gameOverCells]
    generalize st.placedBlocks = blocks
    induction blocks with
    | nil => rfl
    | cons b bs ih =>
      simp only [List.flatMap_cons, List.map_append, List.sum_append, ih, List.map_cons,
        List.sum_cons]
      congr 1
      exact sum_cellValues b.shape _ (gameOverCellValue st.totalShapesPlaced b) (fun _ => rfl)
  · intro b _ hb0
    rw [gameOverCellValue, specCurrentPointValue, hb0]
    ring

/-- Witness for the amended C7 at `stLevelUp`, whose blocks all have bonus
count 0. -/
theorem C7_game_over_bonus_witness :
    awardGameOverBonusTotal stLevelUp =
      (stLevelUp.placedBlocks.map fun b =>
        (b.shape.length : Int) * gameOverCellValue stLevelUp.totalShapesPlaced b).sum ∧
    gameOverCellValue stLevelUp.totalShapesPlaced rowBlockA =
      specCurrentPointValue stLevelUp.totalShapesPlaced rowBlockA :=
  ⟨(C7_game_over_bonus stLevelUp).1,
   (C7_game_over_bonus stLevelUp).2 rowBlockA (by decide) rfl⟩

/-! ## Random shape generation (`src/shapes.ts`) -/

/-- Oracle for the `Math.random()` draws: for the `t`-th draw, the selected
pool index (`Math.floor(random * len)` of an unweighted pick), the
quarter-turn count, the index into the valid-position list, and the
`random * totalWeight` value fed to the weighted scan.  Quantifying over
all oracles covers every outcome of the draws. -/
structure RandOracle where
  poolPick : Nat → Nat
  rotPick : Nat → Nat
  posPick : Nat → Nat
  weightedR : Nat → Rat

/-- The weighted-selection loop of `getRandomShape(true)`: subtract each
shape's weight `1/size` from the running value and return the first shape
that drives it to zero or below. -/
def weightedScan (r : Rat) : List Shape → Option Shape
  | [] => none
  | s :: rest =>
    let r' := r - 1 / (s.length : Rat)
    if Rat.blt 0 r' then weightedScan r' rest else some s

/-- `getRandomShape` from `shapes.ts` under the oracle: a pool shape (never
the monomino) with a random rotation.  Weighted mode scans by inverse size
and falls back to a uniform pick if the scan runs off the list ("shouldn't
happen"). -/
def getRandomShape (o : RandOracle) (t : Nat) (weightedForEasy : Bool) : Shape :=
  if !weightedForEasy then
    rotateShape
      (SHAPES_WITHOUT_MONOMINO.getD (o.poolPick t % SHAPES_WITHOUT_MONOMINO.length) [])
      (o.rotPick t % 4)
  else
    match weightedScan (o.weightedR t) SHAPES_WITHOUT_MONOMINO with
    | some shape => rotateShape shape (o.rotPick t % 4)
    | none =>
      rotateShape
        (SHAPES_WITHOUT_MONOMINO.getD (o.poolPick t % SHAPES_WITHOUT_MONOMINO.length) [])
        (o.rotPick t % 4)

/-- `generateShapes`: three unweighted draws. -/
def generateShapes (o : RandOracle) : List Shape :=
  [getRandomShape o 0 false, getRandomShape o 1 false, getRandomShape o 2 false]

/-- The bounds-checked occupancy read `grid[blockY][blockX]` used by the
grid-level validity scan. -/
def cellBlocked (grid : Board) (q : Pos) : Bool :=
  if h : 0 ≤ q.x ∧ q.x < 8 ∧ 0 ≤ q.y ∧ q.y < 8 then
    grid ⟨q.y.toNat, by omega⟩ ⟨q.x.toNat, by omega⟩
  else false

/-- The per-position test of `getValidPositionsForGrid` in `shapes.ts`:
bounds check first, then grid occupancy. -/
def canPlaceOnGrid (grid : Board) (shape : Shape) (position : Pos) : Bool :=
  shape.all fun block =>
    let bx := position.x + block.x
    let by' := position.y + block.y
    decide (0 ≤ bx) && decide (bx < 8) && decide (0 ≤ by') && decide (by' < 8) &&
      !(cellBlocked grid ⟨bx, by'⟩)

/-- `getValidPositionsForGrid` from `shapes.ts`: the same 64-origin scan as
`getValidPositions`, reading the raw grid. -/
def getValidPositionsForGrid (grid : Board) (shape : Shape) : List Pos :=
  (List.range 8).flatMap fun y =>
    ((List.range 8).map (fun x => (⟨(x : Int), (y : Int)⟩ : Pos))).filter
      (fun position => canPlaceOnGrid grid shape position)

/-- `placeShapeOnGrid` from `shapes.ts`: the same update as
`Board.placeShape`. -/
def placeShapeOnGrid (grid : Board) (shape : Shape) (position : Pos) : Board :=
  placeShape grid shape position

/-- `simulateLineClearing` from `shapes.ts`: find the full rows and the
full columns of the grid, then blank them, rows first. -/
def simulateLineClearing (grid : Board) : Board :=
  clearLines grid (getFullRows grid) (getFullColumns grid)

/-- The per-slot attempt loop of `generateEasyShapes` (at most 50 draws):
the first weighted candidate with a valid position is returned together
with a randomly chosen valid position and the next draw index. -/
def tryFindPiece (o : RandOracle) (grid : Board) : Nat → Nat → Option (Shape × Pos) × Nat
  | t, 0 => (none, t)
  | t, fuel + 1 =>
    let candidate := getRandomShape o t true
    let validPositions := getValidPositionsForGrid grid candidate
    if validPositions.isEmpty then tryFindPiece o grid (t + 1) fuel
    else
      (some (candidate,
        validPositions.getD (o.posPick t % validPositions.length) ⟨0, 0⟩), t + 1)

/-- The outer slot loop of `generateEasyShapes`: on success commit the
placement to the scratch grid and simulate line clearing before the next
slot; on budget exhaustion stop early. -/
def genPieces (o : RandOracle) : Nat → Board → Nat → List Shape → List Shape × Nat
  | 0, _, t, hand => (hand, t)
  | n + 1, grid, t, hand =>
    match tryFindPiece o grid t 50 with
    | (none, t') => (hand, t')
    | (some (candidate, position), t') =>
      genPieces o n (simulateLineClearing (placeShapeOnGrid grid candidate position)) t'
        (hand ++ [candidate])

/-- `generateEasyShapes` from `shapes.ts`: three slots filled by forward
simulation against a scratch copy of the board; slots left over after an
exhausted budget are filled with fully random unweighted draws. -/
def generateEasyShapes (o : RandOracle) (board : Board) : List Shape :=
  let r := genPieces o 3 board 0 []
  r.1 ++ (List.range (3 - r.1.length)).map fun i => getRandomShape o (r.2 + i) false

lemma rotateShape_length (shape : Shape) (rotations : Nat) :
    (rotateShape shape rotations).length = shape.length := by
  rw [rotateShape]
  split
  · rfl
  · simp

lemma weightedScan_mem (s : Shape) :
    ∀ (l : List Shape) (r : Rat), weightedScan r l = some s → s ∈ l := by
  intro l
  induction l with
  | nil => intro r h; exact absurd h (by simp [weightedScan])
  | cons a rest ih =>
    intro r h
    rw [weightedScan] at h
    split at h
    · exact List.mem_cons_of_mem _ (ih _ h)
    · cases h; exact List.mem_cons_self _ _

lemma pool_min_length : ∀ s ∈ SHAPES_WITHOUT_MONOMINO, 2 ≤ s.length := by decide

lemma getRandomShape_min_length (o : RandOracle) (t : Nat) (w : Bool) :
    2 ≤ (getRandomShape o t w).length := by
  have hpool : ∀ i : Nat, i < SHAPES_WITHOUT_MONOMINO.length →
      2 ≤ (SHAPES_WITHOUT_MONOMINO.getD i []).length := by decide
  have hmod : o.poolPick t % SHAPES_WITHOUT_MONOMINO.length <
      SHAPES_WITHOUT_MONOMINO.length := Nat.mod_lt _ (by decide)
  rw [getRandomShape]
  split
  · rw [rotateShape_length]
    exact hpool _ hmod
  · split
    · rename_i shape hscan
      rw [rotateShape_length]
      exact pool_min_length shape (weightedScan_mem shape _ _ hscan)
    · rw [rotateShape_length]
      exact hpool _ hmod

lemma tryFindPiece_valid (o : RandOracle) (grid : Board) :
    ∀ (fuel t : Nat) (c : Shape) (p : Pos) (t' : Nat),
      tryFindPiece o grid t fuel = (some (c, p), t') →
      p ∈ getValidPositionsForGrid grid c ∧ ∃ u, c = getRandomShape o u true := by
  intro fuel
  induction fuel with
  | zero =>
    intro t c p t' h
    exact absurd h (by simp [tryFindPiece])
  | succ fuel ih =>
    intro t c p t' h
    rw [tryFindPiece] at h
    split at h
    · exact ih _ _ _ _ h
    · rename_i hne
      injection h with h1 h2
      injection h1 with h3
      injection h3 with hc hp
      subst hc
      subst hp
      constructor
      · have hlen : 0 < (getValidPositionsForGrid grid (getRandomShape o t true)).length := by
          cases hl : getValidPositionsForGrid grid (getRandomShape o t true) with
          | nil => rw [hl] at hne; exact absurd rfl hne
          | cons q qs => simp [hl]
        have hidx : o.posPick t %
            (getValidPositionsForGrid grid (getRandomShape o t true)).length <
            (getValidPositionsForGrid grid (getRandomShape o t true)).length :=
          Nat.mod_lt _ hlen
        rw [List.getD_eq_getElem _ _ hidx]
        exact List.getElem_mem hidx
      · exact ⟨t, rfl⟩

lemma genPieces_length (o : RandOracle) :
    ∀ (n : Nat) (grid : Board) (t : Nat) (hand : List Shape),
      (genPieces o n grid t hand).1.length ≤ hand.length + n := by
  intro n
  induction n with
  | zero =>
    intro grid t hand
    simp [genPieces]
  | succ n ih =>
    intro grid t hand
    rw [genPieces]
    rcases h : tryFindPiece o grid t 50 with ⟨opt, t'⟩
    cases opt with
    | none => simp
    | some sp =>
      obtain ⟨c, p⟩ := sp
      simp only
      calc (genPieces o n (simulateLineClearing (placeShapeOnGrid grid c p)) t'
              (hand ++ [c])).1.length ≤ (hand ++ [c]).length + n := ih _ _ _
        _ = hand.length + (n + 1) := by simp; omega

lemma genPieces_mem (o : RandOracle) :
    ∀ (n : Nat) (grid : Board) (t : Nat) (hand : List Shape),
      ∀ s ∈ (genPieces o n grid t hand).1,
        s ∈ hand ∨ ∃ u, s = getRandomShape o u true := by
  intro n
  induction n with
  | zero =>
    intro grid t hand s hs
    exact Or.inl hs
  | succ n ih =>
    intro grid t hand s hs
    rw [genPieces] at hs
    rcases h : tryFindPiece o grid t 50 with ⟨opt, t'⟩
    rw [h] at hs
    cases opt with
    | none => exact Or.inl hs
    | some sp =>
      obtain ⟨c, p⟩ := sp
      rcases ih _ _ _ s hs with hmem | hdraw
      · rcases List.mem_append.mp hmem with hh | hc
        · exact Or.inl hh
        · right
          obtain ⟨u, hu⟩ := (tryFindPiece_valid o grid 50 t c p t' h).2
          exact ⟨u, (List.mem_singleton.mp hc).trans hu⟩
      · exact Or.inr hdraw

/-- Claim C9: for every board and every outcome of the draws,
`generateEasyShapes` returns exactly 3 shapes (it never reports an error;
its return type is total); every slot filled during the simulation was a
weighted candidate holding at least one valid position on the scratch grid
at the moment it was committed; and the simulated slots are exactly the
weighted draws, the remaining slots being unweighted fallback draws by
construction. -/
theorem C9_generateEasyShapes_total (o : RandOracle) (board : Board) :
    (generateEasyShapes o board).length = 3 ∧
    (∀ (grid : Board) (t : Nat) (c : Shape) (p : Pos) (t' : Nat),
      tryFindPiece o grid t 50 = (some (c, p), t') →
      p ∈ getValidPositionsForGrid grid c) ∧
    (∀ s ∈ (genPieces o 3 board 0 []).1, ∃ u, s = getRandomShape o u true) := by
  refine ⟨?_, ?_, ?_⟩
  · rw [generateEasyShapes]
    have hle := genPieces_length o 3 board 0 []
    simp only [List.length_nil, Nat.zero_add] at hle
    simp only [List.length_append, List.length_map, List.length_range]
    omega
  · intro grid t c p t' h
    exact (tryFindPiece_valid o grid 50 t c p t' h).1
  · intro s hs
    rcases genPieces_mem o 3 board 0 [] s hs with hmem | hdraw
    · exact absurd hmem (List.not_mem_nil s)
    · exact hdraw

/-- Claim C10: every shape produced by `generateShapes` and by
`generateEasyShapes` — weighted draws, unweighted draws, and fallback draws
alike — comes from the pool without the monomino, hence has at least 2
cells. -/
theorem C10_no_monomino (o : RandOracle) (board : Board) :
    (∀ s ∈ generateShapes o, 2 ≤ s.length) ∧
    (∀ s ∈ generateEasyShapes o board, 2 ≤ s.length) := by
  constructor
  · intro s hs
    rw [generateShapes] at hs
    rcases List.mem_cons.mp hs with rfl | hs
    · exact getRandomShape_min_length o 0 false
    rcases List.mem_cons.mp hs with rfl | hs
    · exact getRandomShape_min_length o 1 false
    rcases List.mem_cons.mp hs with rfl | hs
    · exact getRandomShape_min_length o 2 false
    · exact absurd hs (List.not_mem_nil s)
  · intro s hs
    rw [generateEasyShapes] at hs
    rcases List.mem_append.mp hs with hsim | hfall
    · rcases genPieces_mem o 3 board 0 [] s hsim with hmem | ⟨u, rfl⟩
      · exact absurd hmem (List.not_mem_nil s)
      · exact getRandomShape_min_length o u true
    · obtain ⟨i, hi, rfl⟩ := List.mem_map.mp hfall
      exact getRandomShape_min_length o _ false

/-- A concrete oracle: always pick pool index 0 (the domino), rotation 0,
position index 0, and weighted value 0 (so the weighted scan stops at the
first pool entry, the domino). -/
def zeroOracle : RandOracle :=
  { poolPick := fun _ => 0, rotPick := fun _ => 0, posPick := fun _ => 0,
    weightedR := fun _ => 0 }

set_option maxRecDepth 8000 in
unseal Rat.add Rat.sub Rat.mul Rat.inv in
/-- Witness for C9 under `zeroOracle` on the empty board: the hand has 3
shapes, the first committed piece is the domino at (0,0), a valid position
at the moment of commitment, and every simulated slot is a weighted draw. -/
theorem C9_generateEasyShapes_witness :
    (generateEasyShapes zeroOracle emptyBoard).length = 3 ∧
    (⟨0, 0⟩ : Pos) ∈ getValidPositionsForGrid emptyBoard [⟨0, 0⟩, ⟨1, 0⟩] ∧
    ∃ u, ([⟨0, 0⟩, ⟨1, 0⟩] : Shape) = getRandomShape zeroOracle u true :=
  ⟨(C9_generateEasyShapes_total zeroOracle emptyBoard).1,
   (C9_generateEasyShapes_total zeroOracle emptyBoard).2.1 emptyBoard 0
     [⟨0, 0⟩, ⟨1, 0⟩] ⟨0, 0⟩ 1 (by decide),
   (C9_generateEasyShapes_total zeroOracle emptyBoard).2.2
     [⟨0, 0⟩, ⟨1, 0⟩] (by decide)⟩

set_option maxRecDepth 8000 in
unseal Rat.add Rat.sub Rat.mul Rat.inv in
/-- Witness for C10 under `zeroOracle`: the domino dealt into both hands
has 2 >= 2 cells. -/
theorem C10_no_monomino_witness :
    2 ≤ ([⟨0, 0⟩, ⟨1, 0⟩] : Shape).length ∧
    2 ≤ ([⟨0, 0⟩, ⟨1, 0⟩] : Shape).length :=
  ⟨(C10_no_monomino zeroOracle emptyBoard).1 [⟨0, 0⟩, ⟨1, 0⟩] (by decide),
   (C10_no_monomino zeroOracle emptyBoard).2 [⟨0, 0⟩, ⟨1, 0⟩] (by decide)⟩

end OchoXocho
